import Mathlib

/-!
Shallow embedding of `packages/jsdoc-plugins/lib/relation-fixer/getmissingdocletsdata.js`.

The module exports a single function `getMissingDocletsData( docletCollection,
interfaceClassOrMixinDoclet, options )` which synthesizes "inherited"/"mixed"
doclets for a class/interface/mixin from precomputed relation arrays, and
collects existing doclets that should be ignored.

Modelling conventions:
* A doclet is a record (`Doclet`).  JS `undefined` string fields become
  `Option String`; boolean flags become `Bool` (absent = `false`); the
  relation arrays and `descendants` become `List String` (absent = `[]`,
  matching the `childDoclet[ options.relation ] || []` default and
  `isNonEmptyArray`'s behaviour on non-arrays).
* Scalar fields other than the ones the module reads structurally
  (`scope`, …) live in a string-keyed association list `props`; the
  `options.filter` check `doclet[ key ] !== options.filter[ key ]` is a
  lookup in that list.
* The doclet collection is represented by its `getAll()` sequence, a
  `List Doclet`; `docletCollection.get('memberof:' ++ l)` is the sublist of
  doclets whose `memberof` equals `l`, in store order.
* The dynamic property write `doclet[ relationProperty ] = true` can target
  the keys `"inherited"`, `"mixed"`, and — when `relationProperty` is JS
  `null` (unguarded write on line 58) — the literal key `"null"`; the latter
  is the field `nullKey`.
* The JS `TypeError` thrown when `docletMap[ memberDoclet.memberof ]` is
  `undefined` and line 152 dereferences `.descendants` is modelled by
  `Except String`: every function on the exception path returns
  `Except String _` and the throw is `.error`.
-/

namespace RelationFixer

/-- The `options.relation` discriminator: `'augmentsNested' | 'mixesNested' | 'implementsNested'`. -/
inductive Relation where
  | augmentsNested
  | mixesNested
  | implementsNested
deriving DecidableEq, Repr

/-- The non-`null` values returned by `getRelationProperty`: `'inherited' | 'mixed'`. -/
inductive RelProp where
  | inherited
  | mixed
deriving DecidableEq, Repr

/-- A documentation record.  Fields the source reads by name are explicit;
remaining scalar fields (e.g. `scope`) are in the association list `props`.
`nullKey` is the property stored under the literal string key `"null"`
(created by the unguarded `correctDoclet[ relationProperty ] = true` when
`relationProperty` is `null`). -/
structure Doclet where
  longname : String
  memberof : String := ""
  name : String := ""
  kind : String := ""
  ignore : Bool := false
  undocumented : Bool := false
  inheritdoc : Option String := none
  overrides : Option String := none
  inherited : Bool := false
  mixed : Bool := false
  nullKey : Bool := false
  augmentsNested : List String := []
  mixesNested : List String := []
  implementsNested : List String := []
  descendants : List String := []
  props : List (String × String) := []
deriving DecidableEq, Repr

/-- The `options` argument: relation kind, optional filter
(`{}` default), optional `onlyImplicitlyInherited` (`false` default). -/
structure Options where
  relation : Relation
  filter : List (String × String) := []
  onlyImplicitlyInherited : Bool := false
deriving DecidableEq, Repr

/-- First-binding lookup in an association list (JS property read
`doclet[ key ]`, `undefined` when absent). -/
def lookupProp : List (String × String) → String → Option String
  | [], _ => none
  | (k, v) :: rest, key => if k = key then some v else lookupProp rest key

/-- Model of `childDoclet[ options.relation ] || []` — the relation array selected by name. -/
def relationField (d : Doclet) : Relation → List String
  | .augmentsNested => d.augmentsNested
  | .mixesNested => d.mixesNested
  | .implementsNested => d.implementsNested

/-- Model of the query by member: the doclets recorded under
that `memberof`, in store order. -/
def storeGetByMemberof (all : List Doclet) (l : String) : List Doclet :=
  all.filter fun d => d.memberof == l

/-- Translation of `isNonEmptyArray( obj )`; the argument is always an array in the model. -/
def isNonEmptyArray (l : List String) : Bool :=
  !l.isEmpty

/-- The `shouldDocletBeAdded` predicate of `getDocletsToAdd` (lines 91-108):
rejects `ignore`, `undocumented`, any string-typed `inheritdoc`
(`typeof doclet.inheritdoc == 'string'`), and any mismatch with
`options.filter`. -/
def shouldDocletBeAdded (o : Options) (d : Doclet) : Bool :=
  if d.ignore || d.undocumented || d.inheritdoc.isSome then
    false
  else
    o.filter.all fun kv => lookupProp d.props kv.1 == some kv.2

/-- Translation of `getDocletsToAdd( docletCollection, childDoclet, options )` (lines 79-88):
for each ancestor longname in the relation array, the members of that
ancestor passing `shouldDocletBeAdded`, accumulated in order. -/
def getDocletsToAdd (all : List Doclet) (child : Doclet) (o : Options) : List Doclet :=
  (relationField child o.relation).foldl
    (fun acc l => acc ++ (storeGetByMemberof all l).filter (shouldDocletBeAdded o)) []

/-- Helper for `String.prototype.lastIndexOf( c )` on the character list:
index of the last occurrence, `-1` when absent. -/
def lastIdxAux : List Char → Char → Int → Int → Int
  | [], _, _, acc => acc
  | x :: xs, c, i, acc => lastIdxAux xs c (i + 1) (if x = c then i else acc)

/-- JS `s.lastIndexOf( c )`. -/
def jsLastIndexOf (s : String) (c : Char) : Int :=
  lastIdxAux s.data c 0 (-1)

/-- JS `s.slice( i )` semantics: a negative `i` counts from the end
(clamped at `0`), a non-negative `i` drops the first `i` characters. -/
def jsSliceFrom (s : String) (i : Int) : String :=
  let b : Int := if i < 0 then max ((s.data.length : Int) + i) 0 else i
  ⟨s.data.drop b.toNat⟩

/-- Translation of `getLongnameForNewDoclet( parentDoclet, childDoclet )` (lines 120-126):
`childDoclet.longname + parentDoclet.longname.slice( max(lastIndexOf '.', lastIndexOf '#') )`. -/
def getLongnameForNewDoclet (parentDoclet childDoclet : Doclet) : String :=
  let dotIndex := jsLastIndexOf parentDoclet.longname '.'
  let hashIndex := jsLastIndexOf parentDoclet.longname '#'
  let name := jsSliceFrom parentDoclet.longname (max dotIndex hashIndex)
  childDoclet.longname ++ name

/-- Composition of `createDocletMap` and lookup: the map keeps the first doclet per longname
(`if ( !docletMap[ doclet.longname ] )`), so a lookup is `find?` over
`getAll()`; `none` is JS `undefined`. -/
def docletMapFind (all : List Doclet) (l : String) : Option Doclet :=
  all.find? fun d => d.longname == l

/-- One iteration of the `for ( const longname of memberDocletParent.descendants )`
loop of `getRelationProperty` (lines 153-167), threading the
`(isMixed, isInherited)` flags. -/
def relStep (all : List Doclet) (child : Doclet) (acc : Bool × Bool) (l : String) :
    Bool × Bool :=
  match docletMapFind all l with
  | some d =>
    if d.kind == "mixin" then
      if isNonEmptyArray d.descendants && d.descendants.contains child.longname then
        (true, acc.2)
      else
        acc
    else if d.kind == "class" then
      if isNonEmptyArray d.descendants && d.descendants.contains child.longname then
        (acc.1, true)
      else
        acc
    else
      acc
  | none => acc

/-- Translation of `getRelationProperty( docletMap, childDoclet, memberDoclet, relation )`
(lines 137-177).  `augmentsNested ↦ 'inherited'`, `mixesNested ↦ 'mixed'`;
for `implementsNested` the parent of the member is looked up — a lookup miss
makes line 152 dereference `undefined.descendants`, a `TypeError`, modelled
as `.error` — and its descendants are scanned; `isMixed` wins over
`isInherited`; `.ok none` is the JS `null` return. -/
def getRelationProperty (all : List Doclet) (child memberDoclet : Doclet)
    (relation : Relation) : Except String (Option RelProp) :=
  match relation with
  | .augmentsNested => .ok (some .inherited)
  | .mixesNested => .ok (some .mixed)
  | .implementsNested =>
    match docletMapFind all memberDoclet.memberof with
    | none => .error "TypeError: Cannot read property descendants of undefined"
    | some memberDocletParent =>
      let flags :=
        if isNonEmptyArray memberDocletParent.descendants then
          memberDocletParent.descendants.foldl (relStep all child) (false, false)
        else
          (false, false)
      if flags.1 then .ok (some .mixed)
      else if flags.2 then .ok (some .inherited)
      else .ok none

/-- Translation of `doAllParentsExplicitlyInherit( doclets )` (lines 183-191): every doclet
has `inheritdoc` or `overrides` defined. -/
def doAllParentsExplicitlyInherit (doclets : List Doclet) : Bool :=
  doclets.all fun d => d.inheritdoc.isSome || d.overrides.isSome

/-- The dynamic write `doclet[ relationProperty ] = true`; a `null` key is
coerced by JS to the string `"null"`, hence `nullKey`. -/
def jsSetDynamic (d : Doclet) : Option RelProp → Doclet
  | some .inherited => { d with inherited := true }
  | some .mixed => { d with mixed := true }
  | none => { d with nullKey := true }

/-- Lines 30-40: deep-clone the candidate, overwrite `longname` and
`memberof`, and — only when `relationProperty` is non-`null` — set the
relation flag. -/
def buildClone (target d : Doclet) (rp : Option RelProp) : Doclet :=
  let clonedDoclet : Doclet :=
    { d with
      longname := getLongnameForNewDoclet d target
      memberof := target.longname }
  match rp with
  | some p => jsSetDynamic clonedDoclet (some p)
  | none => clonedDoclet

/-- The body of the `for ( const docletToAdd of docletsToAdd )` loop
(lines 29-63) for one candidate: returns the doclets pushed onto
`newDoclets` and onto `docletsWhichShouldBeIgnored`, or the propagated
exception. -/
def processCandidate (all : List Doclet) (target : Doclet) (o : Options) (d : Doclet) :
    Except String (List Doclet × List Doclet) :=
  match getRelationProperty all target d o.relation with
  | .error e => .error e
  | .ok rp =>
    let clonedDoclet := buildClone target d rp
    let docletsOfSameMember :=
      (storeGetByMemberof all clonedDoclet.memberof).filter fun dd =>
        dd.name == clonedDoclet.name && dd.kind == clonedDoclet.kind
    match docletsOfSameMember with
    | [] => .ok ([clonedDoclet], [])
    | s0 :: rest =>
      if doAllParentsExplicitlyInherit (s0 :: rest) && !o.onlyImplicitlyInherited then
        .ok ([clonedDoclet], s0 :: rest)
      else if !rest.isEmpty then
        -- `docletsOfSameMember.length >= 2`: clone the first sibling and force
        -- the relation property onto it (unguarded write, line 58).
        .ok ([jsSetDynamic s0 rp], s0 :: rest)
      else
        .ok ([], [])

/-- The whole candidate loop, accumulating pushes in order; the first
exception aborts the call. -/
def processAll (all : List Doclet) (target : Doclet) (o : Options) :
    List Doclet → Except String (List Doclet × List Doclet)
  | [] => .ok ([], [])
  | d :: ds =>
    match processCandidate all target o d with
    | .error e => .error e
    | .ok (n, i) =>
      match processAll all target o ds with
      | .error e => .error e
      | .ok (ns, iss) => .ok (n ++ ns, i ++ iss)

/-- The return value `{ newDoclets, docletsWhichShouldBeIgnored }`. -/
structure GMDResult where
  newDoclets : List Doclet
  docletsWhichShouldBeIgnored : List Doclet
deriving DecidableEq, Repr

/-- Translation of `getMissingDocletsData( docletCollection, interfaceClassOrMixinDoclet, options )`
(lines 22-69). -/
def getMissingDocletsData (all : List Doclet) (interfaceClassOrMixinDoclet : Doclet)
    (o : Options) : Except String GMDResult :=
  match processAll all interfaceClassOrMixinDoclet o
      (getDocletsToAdd all interfaceClassOrMixinDoclet o) with
  | .error e => .error e
  | .ok (n, i) => .ok ⟨n, i⟩

/-- Whether the descendant at longname `l` makes the candidate `mixed`: its
doclet exists, is a `mixin`, and its own non-empty `descendants` contain the
target's longname (one arm of the loop body, lines 156-160). -/
def isMixedBy (all : List Doclet) (child : Doclet) (l : String) : Bool :=
  match docletMapFind all l with
  | some d =>
    d.kind == "mixin" && (isNonEmptyArray d.descendants && d.descendants.contains child.longname)
  | none => false

/-- Whether the descendant at longname `l` makes the candidate `inherited`
(the `else if` arm, lines 161-166). -/
def isInheritedBy (all : List Doclet) (child : Doclet) (l : String) : Bool :=
  match docletMapFind all l with
  | some d =>
    d.kind == "class" && (isNonEmptyArray d.descendants && d.descendants.contains child.longname)
  | none => false

/-! ### Concrete doclet stores used in witnesses and counterexamples -/

/-- The spec's example target: `Dog` extends `Animal`. -/
def dogDoclet : Doclet := { longname := "Dog", augmentsNested := ["Animal"] }

/-- The spec's example ancestor class. -/
def animalDoclet : Doclet := { longname := "Animal", kind := "class", descendants := ["Dog"] }

/-- The spec's example inherited member `Animal#speak`. -/
def speakDoclet : Doclet :=
  { longname := "Animal#speak", memberof := "Animal", name := "speak", kind := "function" }

/-- Store for the spec's `Dog`/`Animal` example. -/
def demoStore : List Doclet := [animalDoclet, speakDoclet, dogDoclet]

/-- A target entity implementing interface `I`. -/
def tDoclet : Doclet := { longname := "T", implementsNested := ["I"] }

/-- Interface `I` with both a mixin and a class descendant. -/
def iDoclet : Doclet := { longname := "I", kind := "interface", descendants := ["M", "C"] }

/-- Interface `I` with no descendants at all. -/
def iBareDoclet : Doclet := { longname := "I", kind := "interface" }

/-- A mixin descendant of `I` that reaches `T`. -/
def mixinDoclet : Doclet := { longname := "M", kind := "mixin", descendants := ["T"] }

/-- A class descendant of `I` that reaches `T`. -/
def classDoclet : Doclet := { longname := "C", kind := "class", descendants := ["T"] }

/-- The member of interface `I` to propagate. -/
def imDoclet : Doclet := { longname := "I#m", memberof := "I", name := "m", kind := "function" }

/-- Store where both the mixin and the class descendant condition hold. -/
def c7Store : List Doclet := [tDoclet, iDoclet, mixinDoclet, classDoclet, imDoclet]

/-- Store where `I` has no descendants, so the IMPLEMENTS tag is `null`. -/
def noTagStore : List Doclet := [tDoclet, iBareDoclet, imDoclet]

/-- Store where the candidate's `memberof` (`"I"`) has no doclet at all. -/
def missingParentStore : List Doclet := [tDoclet, imDoclet]

/-- An existing sibling of `m` under `T` carrying `inheritdoc`. -/
def sibInheritdocDoclet : Doclet :=
  { longname := "T#m", memberof := "T", name := "m", kind := "function",
    inheritdoc := some "I#m" }

/-- An existing sibling of `m` under `T` carrying `overrides`. -/
def sibOverridesDoclet : Doclet :=
  { longname := "T#m", memberof := "T", name := "m", kind := "function",
    overrides := some "I#m" }

/-- An existing sibling of `m` under `T` with neither marker. -/
def sibPlainDoclet : Doclet :=
  { longname := "T#m", memberof := "T", name := "m", kind := "function" }

/-- A second plain sibling of `m` under `T` (duplicate declaration). -/
def sibPlainDoclet2 : Doclet :=
  { longname := "T#m", memberof := "T", name := "m", kind := "function",
    props := [("scope", "instance")] }

/-- Store with two fully explicit siblings of the propagated member. -/
def explicitSiblingsStore : List Doclet :=
  [tDoclet, iDoclet, mixinDoclet, classDoclet, imDoclet, sibInheritdocDoclet,
    sibOverridesDoclet]

/-- Store with two non-explicit siblings and a `null` relation tag. -/
def ambiguousStore : List Doclet :=
  [tDoclet, iBareDoclet, imDoclet, sibPlainDoclet, sibPlainDoclet2]

/-- Options selecting the IMPLEMENTS relation. -/
def implementsOpts : Options := { relation := .implementsNested }

/-- Options selecting the EXTENDS relation. -/
def augmentsOpts : Options := { relation := .augmentsNested }

/-- The result `getMissingDocletsData c7Store tDoclet implementsOpts` evaluates to. -/
def c7WitnessResult : GMDResult :=
  ⟨[{ longname := "T#m", memberof := "T", name := "m", kind := "function", mixed := true }], []⟩

end RelationFixer

namespace RelationFixer

/-! ## Helper lemmas about `lastIdxAux` and `jsSliceFrom` -/

theorem lastIdxAux_not_mem (l : List Char) (c : Char) (i a : Int) (h : c ∉ l) :
    lastIdxAux l c i a = a := by
  induction l generalizing i a with
  | nil => rfl
  | cons x xs ih =>
    simp only [List.mem_cons, not_or] at h
    simp only [lastIdxAux]
    rw [if_neg fun hx => h.1 hx.symm]
    exact ih _ _ h.2

theorem lastIdxAux_append (xs ys : List Char) (c : Char) (i a : Int) :
    lastIdxAux (xs ++ ys) c i a = lastIdxAux ys c (i + xs.length) (lastIdxAux xs c i a) := by
  induction xs generalizing i a with
  | nil => simp [lastIdxAux]
  | cons x xs ih =>
    simp only [List.cons_append, lastIdxAux, List.length_cons, List.append_eq]
    rw [ih]
    congr 1
    push_cast
    ring

theorem lastIdxAux_le (l : List Char) (c : Char) (i a : Int) :
    lastIdxAux l c i a ≤ max a (i + l.length - 1) := by
  induction l generalizing i a with
  | nil =>
    simp only [lastIdxAux, List.length_nil]
    exact le_max_left _ _
  | cons x xs ih =>
    simp only [lastIdxAux, List.length_cons]
    refine le_trans (ih _ _) ?_
    push_cast
    split <;> omega

theorem jsLastIndexOf_of_not_mem (s : String) (c : Char) (h : c ∉ s.data) :
    jsLastIndexOf s c = -1 :=
  lastIdxAux_not_mem _ _ _ _ h

theorem jsSliceFrom_neg_one (s : String) :
    jsSliceFrom s (-1) = ⟨s.data.drop (s.data.length - 1)⟩ := by
  simp only [jsSliceFrom]
  rw [if_pos (by norm_num : (-1 : Int) < 0)]
  have htn : (max ((s.data.length : Int) + -1) 0).toNat = s.data.length - 1 := by omega
  rw [htn]

/-! ## Claim theorems: C3, C4, C6 -/

/-- Claim C3 counterexample: the candidate longname `"speak"` contains neither
`'.'` nor `'#'`, yet `getLongnameForNewDoclet` produces `"Dogk"` — the target
longname `"Dog"` with the **last character** of `"speak"` appended (JS
`slice(-1)`), not the target longname unchanged. -/
theorem c3_counterexample :
    ('.' ∉ ("speak" : String).data) ∧ ('#' ∉ ("speak" : String).data) ∧
      getLongnameForNewDoclet { longname := "speak" } { longname := "Dog" } = "Dogk" ∧
      ("Dogk" : String) ≠ ({ longname := "Dog" } : Doclet).longname := by
  decide

/-- Claim C3 (amended): when the candidate longname contains neither `'.'` nor
`'#'`, both `lastIndexOf` calls return `-1`, and JS `slice(-1)` yields the
longname's **last character** (the empty string only when the longname itself
is empty); the synthesized longname is the target longname with that
character appended. -/
theorem c3_amended (p c : Doclet) (h1 : '.' ∉ p.longname.data) (h2 : '#' ∉ p.longname.data) :
    getLongnameForNewDoclet p c =
      c.longname ++ ⟨p.longname.data.drop (p.longname.data.length - 1)⟩ := by
  simp only [getLongnameForNewDoclet, jsLastIndexOf_of_not_mem _ _ h1,
    jsLastIndexOf_of_not_mem _ _ h2, max_self, jsSliceFrom_neg_one]

/-- Witness for `c3_amended` at the concrete input of the counterexample. -/
theorem c3_amended_witness :
    ('.' ∉ ("speak" : String).data) ∧ ('#' ∉ ("speak" : String).data) ∧
      getLongnameForNewDoclet { longname := "speak" } { longname := "Dog" } =
        ({ longname := "Dog" } : Doclet).longname ++
          ⟨(({ longname := "speak" } : Doclet).longname.data.drop
            (({ longname := "speak" } : Doclet).longname.data.length - 1))⟩ :=
  ⟨by decide, by decide, c3_amended { longname := "speak" } { longname := "Dog" }
    (by decide) (by decide)⟩

/-- Claim C4 counterexample: a doclet with `inheritdoc = some ""` (the empty
string; JS `typeof '' == 'string'` is `true`) is **rejected** by
`shouldDocletBeAdded` although it is not flagged `ignore` or `undocumented`,
the filter is empty, and its `inheritdoc` is not a *non-empty* pointer string
— the claim predicts it is kept. -/
theorem c4_counterexample :
    shouldDocletBeAdded { relation := .augmentsNested }
        { longname := "A#x", memberof := "A", name := "x", kind := "function",
          inheritdoc := some "" } = false ∧
      ({ longname := "A#x", memberof := "A", name := "x", kind := "function",
          inheritdoc := some "" } : Doclet).inheritdoc = some "" ∧
      ({ longname := "A#x", memberof := "A", name := "x", kind := "function",
          inheritdoc := some "" } : Doclet).ignore = false ∧
      ({ longname := "A#x", memberof := "A", name := "x", kind := "function",
          inheritdoc := some "" } : Doclet).undocumented = false ∧
      ({ relation := Relation.augmentsNested } : Options).filter = [] := by
  decide

/-- Claim C4 (amended): a member is kept as a candidate iff it is not flagged
`ignore`, not flagged `undocumented`, its `inheritdoc` field is **not a string
at all** (the source tests `typeof doclet.inheritdoc == 'string'`, so the
empty-string marker is excluded as well, not only non-empty pointers), and
every field named in `options.filter` equals the filter's expected value. -/
theorem c4_amended (o : Options) (d : Doclet) :
    shouldDocletBeAdded o d = true ↔
      (d.ignore = false ∧ d.undocumented = false ∧ d.inheritdoc = none ∧
        ∀ kv ∈ o.filter, lookupProp d.props kv.1 = some kv.2) := by
  cases hig : d.ignore <;> cases hun : d.undocumented <;> cases hinh : d.inheritdoc <;>
    simp [shouldDocletBeAdded, hig, hun, hinh, List.all_eq_true, beq_iff_eq]

/-- Claim C6 (confirmed): `getRelationProperty` returns `'inherited'` for the
EXTENDS relation (`augmentsNested`) and `'mixed'` for the MIXES relation
(`mixesNested`) for **every** store and pair of doclets — no `descendants`
list is inspected on these paths. -/
theorem c6_relation_tags (all : List Doclet) (child memberDoclet : Doclet) :
    getRelationProperty all child memberDoclet .augmentsNested = .ok (some .inherited) ∧
      getRelationProperty all child memberDoclet .mixesNested = .ok (some .mixed) :=
  ⟨rfl, rfl⟩

end RelationFixer

namespace RelationFixer

/-! ## Helper lemmas for the separator case of `getLongnameForNewDoclet` -/

theorem lastIdxAux_last_sep (pre rest : List Char) (sep : Char) (hs : sep ∉ rest) :
    lastIdxAux (pre ++ sep :: rest) sep 0 (-1) = pre.length := by
  rw [lastIdxAux_append]
  simp only [lastIdxAux]
  rw [if_pos trivial, lastIdxAux_not_mem _ _ _ _ hs]
  omega

theorem lastIdxAux_other_lt (pre rest : List Char) (sep o : Char) (hne : sep ≠ o)
    (ho : o ∉ rest) :
    lastIdxAux (pre ++ sep :: rest) o 0 (-1) < pre.length := by
  rw [lastIdxAux_append]
  simp only [lastIdxAux]
  rw [if_neg hne, lastIdxAux_not_mem _ _ _ _ ho]
  have hle := lastIdxAux_le pre o 0 (-1)
  omega

theorem jsSliceFrom_nonneg (s : String) (n : Nat) :
    jsSliceFrom s (n : Int) = ⟨s.data.drop n⟩ := by
  simp only [jsSliceFrom]
  rw [if_neg (by omega : ¬((n : Int) < 0))]
  simp

theorem buildClone_longname (target d : Doclet) (rp : Option RelProp) :
    (buildClone target d rp).longname = getLongnameForNewDoclet d target := by
  cases rp with
  | none => rfl
  | some p => cases p <;> rfl

theorem buildClone_memberof (target d : Doclet) (rp : Option RelProp) :
    (buildClone target d rp).memberof = target.longname := by
  cases rp with
  | none => rfl
  | some p => cases p <;> rfl

theorem buildClone_name (target d : Doclet) (rp : Option RelProp) :
    (buildClone target d rp).name = d.name := by
  cases rp with
  | none => rfl
  | some p => cases p <;> rfl

theorem buildClone_kind (target d : Doclet) (rp : Option RelProp) :
    (buildClone target d rp).kind = d.kind := by
  cases rp with
  | none => rfl
  | some p => cases p <;> rfl

/-- Claim C5 (confirmed): for a candidate whose longname decomposes as
`pre ++ sep :: rest` with `sep` its **last** occurrence of `'.'` or `'#'`
(no separator occurs in `rest`), the clone built on lines 30-33 gets
`longname = target.longname ++ (sep :: rest)` — the separator-plus-name
suffix taken from the candidate's own longname — and
`memberof = target.longname`. -/
theorem c5_synthesized_longname (target d : Doclet) (rp : Option RelProp)
    (pre rest : List Char) (sep : Char)
    (hdec : d.longname.data = pre ++ sep :: rest)
    (hsep : sep = '.' ∨ sep = '#')
    (hd : '.' ∉ rest) (hh : '#' ∉ rest) :
    (buildClone target d rp).longname = target.longname ++ ⟨sep :: rest⟩ ∧
      (buildClone target d rp).memberof = target.longname := by
  refine ⟨?_, buildClone_memberof target d rp⟩
  rw [buildClone_longname]
  simp only [getLongnameForNewDoclet, jsLastIndexOf, hdec]
  rcases hsep with h | h
  · subst h
    rw [lastIdxAux_last_sep pre rest '.' hd]
    have hlt := lastIdxAux_other_lt pre rest '.' '#' (by decide) hh
    rw [max_eq_left (le_of_lt hlt), jsSliceFrom_nonneg, hdec, List.drop_left]
  · subst h
    rw [lastIdxAux_last_sep pre rest '#' hh]
    have hlt := lastIdxAux_other_lt pre rest '#' '.' (by decide) hd
    rw [max_eq_right (le_of_lt hlt), jsSliceFrom_nonneg, hdec, List.drop_left]

/-- Witness for `c5_synthesized_longname`: the spec's `Animal#speak` example
propagated onto `Dog`. -/
theorem c5_synthesized_longname_witness :
    (("Animal#speak" : String).data = "Animal".data ++ '#' :: "speak".data) ∧
      ('.' ∉ "speak".data) ∧ ('#' ∉ "speak".data) ∧
      ((buildClone { longname := "Dog" }
            { longname := "Animal#speak", memberof := "Animal", name := "speak",
              kind := "function" } (some .inherited)).longname =
          ({ longname := "Dog" } : Doclet).longname ++ ⟨'#' :: "speak".data⟩ ∧
        (buildClone { longname := "Dog" }
            { longname := "Animal#speak", memberof := "Animal", name := "speak",
              kind := "function" } (some .inherited)).memberof =
          ({ longname := "Dog" } : Doclet).longname) :=
  ⟨by decide, by decide, by decide,
    c5_synthesized_longname { longname := "Dog" }
      { longname := "Animal#speak", memberof := "Animal", name := "speak",
        kind := "function" } (some .inherited) "Animal".data "speak".data '#'
      (by decide) (Or.inr rfl) (by decide) (by decide)⟩

end RelationFixer

namespace RelationFixer

/-! ## Characterization of the `implementsNested` descendants scan -/

theorem relStep_eq (all : List Doclet) (child : Doclet) (a b : Bool) (l : String) :
    relStep all child (a, b) l =
      (a || isMixedBy all child l, b || isInheritedBy all child l) := by
  unfold relStep isMixedBy isInheritedBy
  cases hfind : docletMapFind all l with
  | none => simp
  | some d =>
    dsimp only
    by_cases hm : d.kind = "mixin"
    · have hm2 : (d.kind == "mixin") = true := beq_iff_eq.mpr hm
      have hc2 : (d.kind == "class") = false := by rw [hm]; decide
      rw [hm2, hc2]
      by_cases hcond : (isNonEmptyArray d.descendants &&
          d.descendants.contains child.longname) = true
      · rw [hcond]
        simp
      · rw [Bool.not_eq_true] at hcond
        rw [hcond]
        simp
    · by_cases hcl : d.kind = "class"
      · have hm2 : (d.kind == "mixin") = false := by rw [hcl]; decide
        have hc2 : (d.kind == "class") = true := beq_iff_eq.mpr hcl
        rw [hm2, hc2]
        by_cases hcond : (isNonEmptyArray d.descendants &&
            d.descendants.contains child.longname) = true
        · rw [hcond]
          simp
        · rw [Bool.not_eq_true] at hcond
          rw [hcond]
          simp
      · have hm2 : (d.kind == "mixin") = false := beq_eq_false_iff_ne.mpr hm
        have hc2 : (d.kind == "class") = false := beq_eq_false_iff_ne.mpr hcl
        rw [hm2, hc2]
        simp

theorem foldl_relStep (all : List Doclet) (child : Doclet) (ls : List String) (a b : Bool) :
    ls.foldl (relStep all child) (a, b) =
      (a || ls.any (isMixedBy all child), b || ls.any (isInheritedBy all child)) := by
  induction ls generalizing a b with
  | nil => simp
  | cons x xs ih =>
    simp only [List.foldl_cons, relStep_eq, List.any_cons, ih, Bool.or_assoc]

theorem getRelationProperty_implements (all : List Doclet) (child memberDoclet parent : Doclet)
    (hp : docletMapFind all memberDoclet.memberof = some parent) :
    getRelationProperty all child memberDoclet .implementsNested =
      .ok (if parent.descendants.any (isMixedBy all child) then some .mixed
        else if parent.descendants.any (isInheritedBy all child) then some .inherited
        else none) := by
  unfold getRelationProperty
  rw [hp]
  dsimp only
  by_cases hne : parent.descendants = []
  · simp [isNonEmptyArray, hne]
  · have hnon : isNonEmptyArray parent.descendants = true := by
      unfold isNonEmptyArray
      cases hd2 : parent.descendants with
      | nil => exact absurd hd2 hne
      | cons y ys => rfl
    rw [hnon, foldl_relStep]
    by_cases hb1 : parent.descendants.any (isMixedBy all child) = true
    · rw [hb1]
      simp
    · rw [Bool.not_eq_true] at hb1
      rw [hb1]
      by_cases hb2 : parent.descendants.any (isInheritedBy all child) = true
      · rw [hb2]
        simp
      · rw [Bool.not_eq_true] at hb2
        rw [hb2]
        simp

theorem isMixedBy_eq_true (all : List Doclet) (child : Doclet) (l : String) :
    isMixedBy all child l = true ↔
      ∃ dm, docletMapFind all l = some dm ∧ dm.kind = "mixin" ∧
        child.longname ∈ dm.descendants := by
  unfold isMixedBy
  cases hfind : docletMapFind all l with
  | none => simp
  | some d =>
    simp only [Bool.and_eq_true, beq_iff_eq, Option.some.injEq]
    constructor
    · rintro ⟨hk, -, hc⟩
      exact ⟨d, rfl, hk, List.elem_iff.mp hc⟩
    · rintro ⟨dm, hdm, hk, hc⟩
      subst hdm
      refine ⟨hk, ?_, List.elem_iff.mpr hc⟩
      unfold isNonEmptyArray
      cases hds : d.descendants with
      | nil => rw [hds] at hc; cases hc
      | cons y ys => rfl
    
theorem isInheritedBy_eq_true (all : List Doclet) (child : Doclet) (l : String) :
    isInheritedBy all child l = true ↔
      ∃ dc, docletMapFind all l = some dc ∧ dc.kind = "class" ∧
        child.longname ∈ dc.descendants := by
  unfold isInheritedBy
  cases hfind : docletMapFind all l with
  | none => simp
  | some d =>
    simp only [Bool.and_eq_true, beq_iff_eq, Option.some.injEq]
    constructor
    · rintro ⟨hk, -, hc⟩
      exact ⟨d, rfl, hk, List.elem_iff.mp hc⟩
    · rintro ⟨dc, hdc, hk, hc⟩
      subst hdc
      refine ⟨hk, ?_, List.elem_iff.mpr hc⟩
      unfold isNonEmptyArray
      cases hds : d.descendants with
      | nil => rw [hds] at hc; cases hc
      | cons y ys => rfl

/-- Claim C7 (confirmed): for the IMPLEMENTS relation, when the candidate's
parent doclet has some mixin descendant whose own descendants include the
target's longname **and** some class descendant whose descendants include the
target, the tag is `'mixed'` (`isMixed` is checked first); when neither kind
of descendant condition holds for any descendant, no tag is attached
(`null`). -/
theorem c7_implements_tag (all : List Doclet) (child memberDoclet parent : Doclet)
    (hp : docletMapFind all memberDoclet.memberof = some parent) :
    ((∃ lm ∈ parent.descendants, ∃ dm, docletMapFind all lm = some dm ∧
        dm.kind = "mixin" ∧ child.longname ∈ dm.descendants) →
      (∃ lc ∈ parent.descendants, ∃ dc, docletMapFind all lc = some dc ∧
        dc.kind = "class" ∧ child.longname ∈ dc.descendants) →
      getRelationProperty all child memberDoclet .implementsNested = .ok (some .mixed)) ∧
      ((∀ l ∈ parent.descendants, ∀ dd, docletMapFind all l = some dd →
          ¬(dd.kind = "mixin" ∧ child.longname ∈ dd.descendants) ∧
          ¬(dd.kind = "class" ∧ child.longname ∈ dd.descendants)) →
        getRelationProperty all child memberDoclet .implementsNested = .ok none) := by
  constructor
  · rintro ⟨lm, hlm, dm, hdm, hkind, hmem⟩ -
    rw [getRelationProperty_implements all child memberDoclet parent hp]
    have hany : parent.descendants.any (isMixedBy all child) = true :=
      List.any_eq_true.mpr
        ⟨lm, hlm, (isMixedBy_eq_true all child lm).mpr ⟨dm, hdm, hkind, hmem⟩⟩
    rw [hany]
    rfl
  · intro hnone
    rw [getRelationProperty_implements all child memberDoclet parent hp]
    have h1 : parent.descendants.any (isMixedBy all child) = false := by
      rw [List.any_eq_false]
      intro x hx hb
      obtain ⟨dm, hdm, hkind, hmem⟩ := (isMixedBy_eq_true all child x).mp hb
      exact (hnone x hx dm hdm).1 ⟨hkind, hmem⟩
    have h2 : parent.descendants.any (isInheritedBy all child) = false := by
      rw [List.any_eq_false]
      intro x hx hb
      obtain ⟨dc, hdc, hkind, hmem⟩ := (isInheritedBy_eq_true all child x).mp hb
      exact (hnone x hx dc hdc).2 ⟨hkind, hmem⟩
    rw [h1, h2]
    rfl

/-- Witness for `c7_implements_tag` on `c7Store`: interface `I` has the mixin
descendant `M` and the class descendant `C`, both reaching `T`; the tag is
`'mixed'`. -/
theorem c7_implements_tag_witness :
    docletMapFind c7Store imDoclet.memberof = some iDoclet ∧
      (∃ lm ∈ iDoclet.descendants, ∃ dm, docletMapFind c7Store lm = some dm ∧
        dm.kind = "mixin" ∧ tDoclet.longname ∈ dm.descendants) ∧
      (∃ lc ∈ iDoclet.descendants, ∃ dc, docletMapFind c7Store lc = some dc ∧
        dc.kind = "class" ∧ tDoclet.longname ∈ dc.descendants) ∧
      getRelationProperty c7Store tDoclet imDoclet .implementsNested = .ok (some .mixed) :=
  ⟨by decide, ⟨"M", by decide, mixinDoclet, by decide, rfl, by decide⟩,
    ⟨"C", by decide, classDoclet, by decide, rfl, by decide⟩,
    (c7_implements_tag c7Store tDoclet imDoclet iDoclet (by decide)).1
      ⟨"M", by decide, mixinDoclet, by decide, rfl, by decide⟩
      ⟨"C", by decide, classDoclet, by decide, rfl, by decide⟩⟩

end RelationFixer

namespace RelationFixer

/-! ## Branch behaviour of the candidate loop (lines 42-62) -/

/-- Claim C8 (confirmed): when no doclet with the candidate's `name` and
`kind` already exists under the target (`docletsOfSameMember.length === 0`),
the synthesized clone is pushed onto `newDoclets` — with `memberof` equal to
the target's longname — and nothing is pushed onto
`docletsWhichShouldBeIgnored` for that candidate. -/
theorem c8_new_member (all : List Doclet) (target d : Doclet) (o : Options)
    (rp : Option RelProp)
    (hrp : getRelationProperty all target d o.relation = .ok rp)
    (hsib : (storeGetByMemberof all target.longname).filter
      (fun dd => dd.name == d.name && dd.kind == d.kind) = []) :
    processCandidate all target o d = .ok ([buildClone target d rp], []) ∧
      (buildClone target d rp).memberof = target.longname := by
  refine ⟨?_, buildClone_memberof target d rp⟩
  unfold processCandidate
  rw [hrp]
  dsimp only
  simp only [buildClone_memberof, buildClone_name, buildClone_kind]
  rw [hsib]

/-- Witness for `c8_new_member`: the spec's `Dog`/`Animal` example — no
`speak` member exists under `Dog` yet. -/
theorem c8_new_member_witness :
    getRelationProperty demoStore dogDoclet speakDoclet augmentsOpts.relation =
        .ok (some .inherited) ∧
      (storeGetByMemberof demoStore dogDoclet.longname).filter
        (fun dd => dd.name == speakDoclet.name && dd.kind == speakDoclet.kind) = [] ∧
      (processCandidate demoStore dogDoclet augmentsOpts speakDoclet =
        .ok ([buildClone dogDoclet speakDoclet (some .inherited)], []) ∧
        (buildClone dogDoclet speakDoclet (some .inherited)).memberof =
          dogDoclet.longname) :=
  ⟨rfl, by decide,
    c8_new_member demoStore dogDoclet speakDoclet augmentsOpts (some .inherited) rfl
      (by decide)⟩

/-- Claim C9 (confirmed): when exactly two siblings with the candidate's
`name` and `kind` exist under the target, all of them carry a defined
`inheritdoc` or `overrides`, and `onlyImplicitlyInherited` is `false`, both
siblings are pushed onto `docletsWhichShouldBeIgnored` and exactly one
synthesized clone is pushed onto `newDoclets`. -/
theorem c9_explicit_siblings (all : List Doclet) (target d : Doclet) (o : Options)
    (rp : Option RelProp) (s1 s2 : Doclet)
    (hrp : getRelationProperty all target d o.relation = .ok rp)
    (hsib : (storeGetByMemberof all target.longname).filter
      (fun dd => dd.name == d.name && dd.kind == d.kind) = [s1, s2])
    (hexp : doAllParentsExplicitlyInherit [s1, s2] = true)
    (honly : o.onlyImplicitlyInherited = false) :
    processCandidate all target o d = .ok ([buildClone target d rp], [s1, s2]) := by
  unfold processCandidate
  rw [hrp]
  dsimp only
  simp only [buildClone_memberof, buildClone_name, buildClone_kind]
  rw [hsib]
  dsimp only
  rw [hexp, honly]
  simp

/-- Witness for `c9_explicit_siblings`: two explicit siblings of `T#m`, one
with `inheritdoc` and one with `overrides`. -/
theorem c9_explicit_siblings_witness :
    getRelationProperty explicitSiblingsStore tDoclet imDoclet implementsOpts.relation =
        .ok (some .mixed) ∧
      (storeGetByMemberof explicitSiblingsStore tDoclet.longname).filter
        (fun dd => dd.name == imDoclet.name && dd.kind == imDoclet.kind) =
        [sibInheritdocDoclet, sibOverridesDoclet] ∧
      doAllParentsExplicitlyInherit [sibInheritdocDoclet, sibOverridesDoclet] = true ∧
      implementsOpts.onlyImplicitlyInherited = false ∧
      processCandidate explicitSiblingsStore tDoclet implementsOpts imDoclet =
        .ok ([buildClone tDoclet imDoclet (some .mixed)],
          [sibInheritdocDoclet, sibOverridesDoclet]) :=
  ⟨rfl, by decide, by decide, rfl,
    c9_explicit_siblings explicitSiblingsStore tDoclet imDoclet implementsOpts
      (some .mixed) sibInheritdocDoclet sibOverridesDoclet rfl (by decide) (by decide) rfl⟩

/-- Claim C10 (confirmed): in the ambiguous two-or-more-siblings branch with a
`null` relation tag (IMPLEMENTS with neither descendant condition), the
emitted clone of the first sibling keeps its `inherited` and `mixed` fields
unchanged, and instead the property under the literal key `"null"` is set to
`true` (the unguarded `correctDoclet[ relationProperty ] = true` with
`relationProperty === null`). -/
theorem c10_null_key (all : List Doclet) (target d : Doclet) (o : Options)
    (s0 s1 : Doclet) (rest : List Doclet)
    (hrp : getRelationProperty all target d o.relation = .ok none)
    (hsib : (storeGetByMemberof all target.longname).filter
      (fun dd => dd.name == d.name && dd.kind == d.kind) = s0 :: s1 :: rest)
    (hnb : (doAllParentsExplicitlyInherit (s0 :: s1 :: rest) &&
      !o.onlyImplicitlyInherited) = false) :
    processCandidate all target o d =
        .ok ([{ s0 with nullKey := true }], s0 :: s1 :: rest) ∧
      ({ s0 with nullKey := true } : Doclet).inherited = s0.inherited ∧
      ({ s0 with nullKey := true } : Doclet).mixed = s0.mixed ∧
      ({ s0 with nullKey := true } : Doclet).nullKey = true := by
  refine ⟨?_, rfl, rfl, rfl⟩
  unfold processCandidate
  rw [hrp]
  dsimp only
  simp only [buildClone_memberof, buildClone_name, buildClone_kind]
  rw [hsib]
  dsimp only
  rw [hnb]
  simp [jsSetDynamic]

/-- Witness for `c10_null_key`: two plain siblings of `T#m` and an interface
with no descendants, so the relation tag is `null`. -/
theorem c10_null_key_witness :
    getRelationProperty ambiguousStore tDoclet imDoclet implementsOpts.relation =
        .ok none ∧
      (storeGetByMemberof ambiguousStore tDoclet.longname).filter
        (fun dd => dd.name == imDoclet.name && dd.kind == imDoclet.kind) =
        [sibPlainDoclet, sibPlainDoclet2] ∧
      (doAllParentsExplicitlyInherit [sibPlainDoclet, sibPlainDoclet2] &&
        !implementsOpts.onlyImplicitlyInherited) = false ∧
      processCandidate ambiguousStore tDoclet implementsOpts imDoclet =
        .ok ([{ sibPlainDoclet with nullKey := true }],
          [sibPlainDoclet, sibPlainDoclet2]) :=
  ⟨rfl, by decide, by decide,
    (c10_null_key ambiguousStore tDoclet imDoclet implementsOpts sibPlainDoclet
      sibPlainDoclet2 [] rfl (by decide) (by decide)).1⟩

end RelationFixer

namespace RelationFixer

/-! ## Membership and flag lemmas for the whole loop -/

theorem mem_storeGetByMemberof (all : List Doclet) (l : String) (x : Doclet)
    (h : x ∈ storeGetByMemberof all l) : x ∈ all :=
  (List.mem_filter.mp h).1

theorem foldl_append_mem {α β : Type} (g : β → List α) (ls : List β) (acc : List α) (x : α)
    (h : x ∈ ls.foldl (fun a l => a ++ g l) acc) : x ∈ acc ∨ ∃ l ∈ ls, x ∈ g l := by
  induction ls generalizing acc with
  | nil => exact Or.inl h
  | cons y ys ih =>
    rcases ih _ h with h1 | ⟨l, hl, hx⟩
    · rcases List.mem_append.mp h1 with h2 | h2
      · exact Or.inl h2
      · exact Or.inr ⟨y, List.mem_cons_self y ys, h2⟩
    · exact Or.inr ⟨l, List.mem_cons_of_mem _ hl, hx⟩

theorem mem_getDocletsToAdd (all : List Doclet) (child : Doclet) (o : Options) (x : Doclet)
    (h : x ∈ getDocletsToAdd all child o) : x ∈ all := by
  unfold getDocletsToAdd at h
  rcases foldl_append_mem _ _ _ _ h with h1 | ⟨l, -, hx⟩
  · cases h1
  · exact mem_storeGetByMemberof all l x (List.mem_filter.mp hx).1

theorem buildClone_flags (target d : Doclet) (rp : Option RelProp)
    (hd : d.inherited = false ∧ d.mixed = false) :
    ¬((buildClone target d rp).inherited = true ∧ (buildClone target d rp).mixed = true) := by
  cases rp with
  | none => simp [buildClone, hd.1]
  | some p => cases p with
    | inherited => simp [buildClone, jsSetDynamic, hd.2]
    | mixed => simp [buildClone, jsSetDynamic, hd.1]

theorem jsSetDynamic_flags (s : Doclet) (rp : Option RelProp)
    (hs : s.inherited = false ∧ s.mixed = false) :
    ¬((jsSetDynamic s rp).inherited = true ∧ (jsSetDynamic s rp).mixed = true) := by
  cases rp with
  | none => simp [jsSetDynamic, hs.1]
  | some p => cases p with
    | inherited => simp [jsSetDynamic, hs.2]
    | mixed => simp [jsSetDynamic, hs.1]

/-- Every doclet pushed onto `newDoclets` for one candidate is either the
built clone or a forced clone of a sibling found in the store. -/
theorem processCandidate_newDoclets_cases (all : List Doclet) (target d : Doclet)
    (o : Options) (res : List Doclet × List Doclet)
    (hok : processCandidate all target o d = .ok res) (x : Doclet) (hx : x ∈ res.1) :
    (∃ rp, getRelationProperty all target d o.relation = .ok rp ∧
      x = buildClone target d rp) ∨
      (∃ rp s0, getRelationProperty all target d o.relation = .ok rp ∧ s0 ∈ all ∧
        x = jsSetDynamic s0 rp) := by
  unfold processCandidate at hok
  cases hrel : getRelationProperty all target d o.relation with
  | error e => rw [hrel] at hok; cases hok
  | ok rp =>
    rw [hrel] at hok
    dsimp only at hok
    rcases hsibs : (storeGetByMemberof all (buildClone target d rp).memberof).filter
        (fun dd => dd.name == (buildClone target d rp).name &&
          dd.kind == (buildClone target d rp).kind) with - | ⟨s0, rest⟩
    · rw [hsibs] at hok
      dsimp only at hok
      rw [← Except.ok.inj hok] at hx
      rw [List.mem_singleton.mp hx]
      exact Or.inl ⟨rp, rfl, rfl⟩
    · rw [hsibs] at hok
      dsimp only at hok
      have hs0 : s0 ∈ all := by
        have hmem : s0 ∈ (storeGetByMemberof all (buildClone target d rp).memberof).filter
            (fun dd => dd.name == (buildClone target d rp).name &&
              dd.kind == (buildClone target d rp).kind) := by
          rw [hsibs]
          exact List.mem_cons_self _ _
        exact mem_storeGetByMemberof all _ s0 (List.mem_filter.mp hmem).1
      by_cases hc1 : (doAllParentsExplicitlyInherit (s0 :: rest) &&
          !o.onlyImplicitlyInherited) = true
      · rw [hc1] at hok
        simp only [if_pos] at hok
        rw [← Except.ok.inj hok] at hx
        rw [List.mem_singleton.mp hx]
        exact Or.inl ⟨rp, rfl, rfl⟩
      · rw [Bool.not_eq_true] at hc1
        rw [hc1] at hok
        cases rest with
        | nil =>
          simp only [List.isEmpty_nil, Bool.not_true, if_neg, if_pos] at hok
          rw [← Except.ok.inj hok] at hx
          cases hx
        | cons s1 rest2 =>
          simp only [List.isEmpty_cons, Bool.not_false, if_neg, if_pos] at hok
          rw [← Except.ok.inj hok] at hx
          rw [List.mem_singleton.mp hx]
          exact Or.inr ⟨rp, s0, rfl, hs0, rfl⟩

theorem processAll_flags (all : List Doclet) (target : Doclet) (o : Options)
    (ds : List Doclet) (res : List Doclet × List Doclet)
    (hds : ∀ d ∈ ds, d ∈ all)
    (hall : ∀ s ∈ all, s.inherited = false ∧ s.mixed = false)
    (hok : processAll all target o ds = .ok res) :
    ∀ x ∈ res.1, ¬(x.inherited = true ∧ x.mixed = true) := by
  induction ds generalizing res with
  | nil =>
    unfold processAll at hok
    intro x hx
    rw [← Except.ok.inj hok] at hx
    cases hx
  | cons d ds ih =>
    unfold processAll at hok
    cases hpc : processCandidate all target o d with
    | error e => rw [hpc] at hok; cases hok
    | ok p =>
      obtain ⟨n, i⟩ := p
      rw [hpc] at hok
      cases hrest : processAll all target o ds with
      | error e => rw [hrest] at hok; cases hok
      | ok q =>
        obtain ⟨ns, iss⟩ := q
        rw [hrest] at hok
        dsimp only at hok
        intro x hx
        rw [← Except.ok.inj hok] at hx
        dsimp only at hx
        rcases List.mem_append.mp hx with hxn | hxns
        · rcases processCandidate_newDoclets_cases all target d o (n, i) hpc x hxn with
            ⟨rp, -, hxe⟩ | ⟨rp, s0, -, hs0, hxe⟩
          · rw [hxe]
            exact buildClone_flags target d rp (hall d (hds d (List.mem_cons_self d ds)))
          · rw [hxe]
            exact jsSetDynamic_flags s0 rp (hall s0 hs0)
        · exact ih (ns, iss) (fun d2 hd2 => hds d2 (List.mem_cons_of_mem _ hd2)) hrest x hxns

/-- Claim C1 counterexample: under IMPLEMENTS with an interface that has no
descendants, `getRelationProperty` returns `null`, and the clone pushed onto
`newDoclets` carries **neither** `inherited` nor `mixed` — the claim's
"exactly one of the two fields is set" fails. -/
theorem c1_counterexample :
    (getMissingDocletsData noTagStore tDoclet implementsOpts).map
        (fun r => r.newDoclets.map fun d => (d.inherited, d.mixed)) =
      .ok [(false, false)] := rfl

/-- Claim C1 (amended): provided the store's doclets carry neither flag
themselves, every doclet in `newDoclets` — whether the built clone or the
forced clone of the first sibling — has **at most one** of
`{inherited, mixed}` set, never both; under IMPLEMENTS with a `null` tag it
may have neither. -/
theorem c1_amended (all : List Doclet) (target : Doclet) (o : Options) (res : GMDResult)
    (hall : ∀ s ∈ all, s.inherited = false ∧ s.mixed = false)
    (hres : getMissingDocletsData all target o = .ok res) :
    ∀ x ∈ res.newDoclets, ¬(x.inherited = true ∧ x.mixed = true) := by
  unfold getMissingDocletsData at hres
  cases hpa : processAll all target o (getDocletsToAdd all target o) with
  | error e => rw [hpa] at hres; cases hres
  | ok p =>
    obtain ⟨n, i⟩ := p
    rw [hpa] at hres
    dsimp only at hres
    intro x hx
    rw [← Except.ok.inj hres] at hx
    exact processAll_flags all target o (getDocletsToAdd all target o) (n, i)
      (fun d hd => mem_getDocletsToAdd all target o d hd) hall hpa x hx

/-- Witness for `c1_amended` on `c7Store`, whose resolution yields one
`mixed` clone. -/
theorem c1_amended_witness :
    (∀ s ∈ c7Store, s.inherited = false ∧ s.mixed = false) ∧
      ∀ x ∈ c7WitnessResult.newDoclets, ¬(x.inherited = true ∧ x.mixed = true) :=
  ⟨by decide, c1_amended c7Store tDoclet implementsOpts c7WitnessResult (by decide) rfl⟩

/-! ## Error behaviour (claim C2) -/

/-- Claim C2 counterexample: with the IMPLEMENTS relation and a candidate
whose `memberof` (`"I"`) has no doclet in the store, `getMissingDocletsData`
raises a `TypeError` (line 152 dereferences `undefined.descendants`) instead
of returning a degenerate result. -/
theorem c2_counterexample :
    getMissingDocletsData missingParentStore tDoclet implementsOpts =
      .error "TypeError: Cannot read property descendants of undefined" := rfl

theorem processCandidate_isOk (all : List Doclet) (target : Doclet) (o : Options)
    (d : Doclet) (h : ∃ rp, getRelationProperty all target d o.relation = .ok rp) :
    ∃ res, processCandidate all target o d = .ok res := by
  obtain ⟨rp, hrp⟩ := h
  unfold processCandidate
  rw [hrp]
  dsimp only
  rcases hsibs : (storeGetByMemberof all (buildClone target d rp).memberof).filter
      (fun dd => dd.name == (buildClone target d rp).name &&
        dd.kind == (buildClone target d rp).kind) with - | ⟨s0, rest⟩
  · rw [hsibs]
    exact ⟨_, rfl⟩
  · rw [hsibs]
    dsimp only
    by_cases hc1 : (doAllParentsExplicitlyInherit (s0 :: rest) &&
        !o.onlyImplicitlyInherited) = true
    · rw [hc1]
      exact ⟨_, rfl⟩
    · rw [Bool.not_eq_true] at hc1
      rw [hc1]
      cases rest with
      | nil => exact ⟨_, rfl⟩
      | cons s1 rest2 => exact ⟨_, rfl⟩

theorem processAll_isOk (all : List Doclet) (target : Doclet) (o : Options)
    (ds : List Doclet)
    (h : ∀ d ∈ ds, ∃ rp, getRelationProperty all target d o.relation = .ok rp) :
    ∃ res, processAll all target o ds = .ok res := by
  induction ds with
  | nil => exact ⟨([], []), rfl⟩
  | cons d ds ih =>
    obtain ⟨p, hp⟩ := processCandidate_isOk all target o d (h d (List.mem_cons_self d ds))
    obtain ⟨q, hq⟩ := ih fun d2 hd2 => h d2 (List.mem_cons_of_mem _ hd2)
    obtain ⟨n, i⟩ := p
    obtain ⟨ns, iss⟩ := q
    refine ⟨(n ++ ns, i ++ iss), ?_⟩
    unfold processAll
    rw [hp, hq]

/-- Claim C2 (amended): the call never raises for the EXTENDS and MIXES
relations, and under IMPLEMENTS it never raises provided every candidate's
`memberof` resolves to a doclet in the store; the remaining case — an
IMPLEMENTS candidate whose `memberof` has no doclet — raises a `TypeError`
(see the counterexample) instead of degrading silently. -/
theorem c2_amended (all : List Doclet) (target : Doclet) (o : Options)
    (h : o.relation ≠ .implementsNested ∨
      ∀ d ∈ getDocletsToAdd all target o, (docletMapFind all d.memberof).isSome = true) :
    (getMissingDocletsData all target o).isOk = true := by
  have hcands : ∀ d ∈ getDocletsToAdd all target o,
      ∃ rp, getRelationProperty all target d o.relation = .ok rp := by
    intro d hd
    cases hrel : o.relation with
    | augmentsNested => exact ⟨some .inherited, rfl⟩
    | mixesNested => exact ⟨some .mixed, rfl⟩
    | implementsNested =>
      rcases h with h | h
      · exact absurd hrel h
      · have hd2 := h d hd
        cases hfind : docletMapFind all d.memberof with
        | none => rw [hfind] at hd2; cases hd2
        | some parent =>
          exact ⟨_, getRelationProperty_implements all target d parent hfind⟩
  obtain ⟨res, hres⟩ := processAll_isOk all target o (getDocletsToAdd all target o) hcands
  obtain ⟨n, i⟩ := res
  unfold getMissingDocletsData
  rw [hres]
  rfl

/-- Witness for `c2_amended`: the EXTENDS example store resolves without an
error. -/
theorem c2_amended_witness :
    (augmentsOpts.relation ≠ Relation.implementsNested ∨
      ∀ d ∈ getDocletsToAdd demoStore dogDoclet augmentsOpts,
        (docletMapFind demoStore d.memberof).isSome = true) ∧
      (getMissingDocletsData demoStore dogDoclet augmentsOpts).isOk = true :=
  ⟨Or.inl (by decide), c2_amended demoStore dogDoclet augmentsOpts (Or.inl (by decide))⟩

end RelationFixer
